import Mathlib

/-!
# Verification of the bifrost-benchmarking load generator

A shallow embedding, in Lean 4, of the parts of the `maximhq/bifrost-benchmarking`
repository that the specification's claims are about:

* the `concurrent` package (`Runner`, `Metrics`, `recordResult`, the semaphore-based
  worker/`makeRequest` scheme and the ramp-up scheduler), and
* the metric conversion, histogram construction and `saveResults` merge logic of the
  main benchmarking program.

Go's `time.Duration` values recorded as latencies are modelled as natural numbers of
nanoseconds (every latency stored by the program is a nonnegative `time.Since`
measurement, or the zero value).  Go `float64` arithmetic is modelled exactly over `ℚ`.
Go `map[string]int` values that are built key-by-key are modelled as total functions
`String → ℕ` (the Go zero value for an absent key), and the persisted JSON results
document, whose keys may be absent, as `String → Option SerializableResult`.
-/

namespace BifrostBench

/-! ## The `concurrent` package: data model -/

/-- Source type `Result` from the `concurrent` package: the outcome of a single request. -/
structure Result where
  StatusCode : Int
  Latency : Nat
  Error : String
  Success : Bool
deriving DecidableEq, Repr

/-- Source type `Metrics` from the `concurrent` package (the `sync.Mutex` field is not data).
`SuccessRate` is the `float64` field, modelled over `ℚ`. -/
structure Metrics where
  TotalRequests : Nat
  SuccessCount : Nat
  FailureCount : Nat
  SuccessRate : ℚ
  Results : List Result
  TotalLatency : Nat
  MinLatency : Nat
  MaxLatency : Nat

/-- The metrics value installed by `NewRunner`: all counters zero, empty result list. -/
def initMetrics : Metrics :=
  { TotalRequests := 0, SuccessCount := 0, FailureCount := 0, SuccessRate := 0
    Results := [], TotalLatency := 0, MinLatency := 0, MaxLatency := 0 }

/-- Method `Runner.recordResult`: one mutex-protected metrics update, translated field by
field from the Go source (the lock serialises calls, so the sequential function is
the whole behaviour). -/
def recordResult (m : Metrics) (result : Result) : Metrics :=
  let m := { m with TotalRequests := m.TotalRequests + 1 }
  let m :=
    if result.Success then { m with SuccessCount := m.SuccessCount + 1 }
    else { m with FailureCount := m.FailureCount + 1 }
  let m := { m with TotalLatency := m.TotalLatency + result.Latency }
  let m := if m.MaxLatency < result.Latency then { m with MaxLatency := result.Latency } else m
  let m :=
    if m.MinLatency = 0 ∨ result.Latency < m.MinLatency then
      { m with MinLatency := result.Latency }
    else m
  { m with Results := m.Results ++ [result] }

/-- The metrics after a finite sequence of `recordResult` calls, starting from the
`NewRunner` initial metrics. -/
def recordAll (rs : List Result) : Metrics :=
  rs.foldl recordResult initMetrics

/-- The success-rate computation at the end of `Runner.Run`:
`SuccessRate = float64(SuccessCount) / float64(TotalRequests) * 100`, guarded by
`TotalRequests > 0`. -/
def runFinalize (m : Metrics) : Metrics :=
  if 0 < m.TotalRequests then
    { m with SuccessRate := (m.SuccessCount : ℚ) / (m.TotalRequests : ℚ) * 100 }
  else m

/-! ### Outcome constructors, from `Runner.makeRequest` -/

/-- The result recorded when `requestGen` fails (`makeRequest`, first error path):
zero status, zero latency, failure. -/
def genFailureResult (msg : String) : Result :=
  { StatusCode := 0, Latency := 0, Error := "request generation failed: " ++ msg
    Success := false }

/-- The result recorded when `http.NewRequest` fails (`makeRequest`, second error
path): zero status, zero latency, failure. -/
def buildFailureResult (msg : String) : Result :=
  { StatusCode := 0, Latency := 0, Error := "failed to create http request: " ++ msg
    Success := false }

/-- The result recorded when `client.Do` fails (transport failure): zero status,
measured latency, failure. -/
def transportFailureResult (msg : String) (latency : Nat) : Result :=
  { StatusCode := 0, Latency := latency, Error := "request failed: " ++ msg
    Success := false }

/-- The result recorded for a completed HTTP exchange: the response status code,
the measured latency, and `Success := 200 <= code && code < 300`. -/
def httpResult (code : Int) (latency : Nat) : Result :=
  { StatusCode := code, Latency := latency, Error := ""
    Success := decide (200 ≤ code ∧ code < 300) }

/-! ## Counter bookkeeping lemmas -/

theorem recordResult_totalRequests (m : Metrics) (r : Result) :
    (recordResult m r).TotalRequests = m.TotalRequests + 1 := by
  simp only [recordResult]
  split <;> split <;> split <;> rfl

theorem recordResult_counts (m : Metrics) (r : Result) :
    (recordResult m r).SuccessCount + (recordResult m r).FailureCount =
      m.SuccessCount + m.FailureCount + 1 := by
  simp only [recordResult]
  split <;> split <;> split <;> simp <;> omega

theorem recordResult_successCount (m : Metrics) (r : Result) :
    (recordResult m r).SuccessCount =
      m.SuccessCount + (if r.Success then 1 else 0) := by
  simp only [recordResult]
  split <;> split <;> split <;> simp

theorem recordResult_totalLatency (m : Metrics) (r : Result) :
    (recordResult m r).TotalLatency = m.TotalLatency + r.Latency := by
  simp only [recordResult]
  split <;> split <;> split <;> rfl

theorem foldl_recordResult_totalRequests (rs : List Result) (m : Metrics) :
    (rs.foldl recordResult m).TotalRequests = m.TotalRequests + rs.length := by
  induction rs generalizing m with
  | nil => simp
  | cons r rs ih =>
      simp only [List.foldl_cons, List.length_cons, ih, recordResult_totalRequests]
      omega

theorem foldl_recordResult_counts (rs : List Result) (m : Metrics) :
    (rs.foldl recordResult m).SuccessCount + (rs.foldl recordResult m).FailureCount =
      m.SuccessCount + m.FailureCount + rs.length := by
  induction rs generalizing m with
  | nil => simp
  | cons r rs ih =>
      simp only [List.foldl_cons, List.length_cons, ih, recordResult_counts]
      omega

theorem foldl_recordResult_successCount (rs : List Result) (m : Metrics) :
    (rs.foldl recordResult m).SuccessCount =
      m.SuccessCount + rs.countP (·.Success) := by
  induction rs generalizing m with
  | nil => simp
  | cons r rs ih =>
      simp only [List.foldl_cons, List.countP_cons, ih, recordResult_successCount]
      by_cases h : r.Success
      · simp [h]; omega
      · simp [h]

theorem foldl_recordResult_totalLatency (rs : List Result) (m : Metrics) :
    (rs.foldl recordResult m).TotalLatency =
      m.TotalLatency + (rs.map Result.Latency).sum := by
  induction rs generalizing m with
  | nil => simp
  | cons r rs ih =>
      simp only [List.foldl_cons, List.map_cons, List.sum_cons, ih,
        recordResult_totalLatency]
      omega

/-- C3: after every finite sequence of `recordResult` calls, `TotalRequests` equals
`SuccessCount + FailureCount`; each single call increments `TotalRequests` by one and
increments exactly one of the two outcome counters. -/
theorem totalRequests_eq_success_add_failure :
    (∀ rs : List Result,
      (recordAll rs).TotalRequests = (recordAll rs).SuccessCount + (recordAll rs).FailureCount) ∧
    (∀ (m : Metrics) (r : Result),
      (recordResult m r).TotalRequests = m.TotalRequests + 1 ∧
      (recordResult m r).SuccessCount + (recordResult m r).FailureCount =
        m.SuccessCount + m.FailureCount + 1) := by
  refine ⟨fun rs => ?_, fun m r => ⟨recordResult_totalRequests m r, recordResult_counts m r⟩⟩
  have h1 := foldl_recordResult_totalRequests rs initMetrics
  have h2 := foldl_recordResult_counts rs initMetrics
  simp only [recordAll, initMetrics] at *
  omega

/-! ## MinLatency tracking -/

theorem recordResult_minLatency (m : Metrics) (r : Result) :
    (recordResult m r).MinLatency =
      if m.MinLatency = 0 ∨ r.Latency < m.MinLatency then r.Latency else m.MinLatency := by
  simp only [recordResult]
  split <;> split <;> split <;> simp_all

theorem recordResult_minLatency_of_zero_latency (m : Metrics) (r : Result)
    (h : r.Latency = 0) : (recordResult m r).MinLatency = 0 := by
  rw [recordResult_minLatency, h]
  rcases Nat.eq_zero_or_pos m.MinLatency with h0 | h0 <;> simp [h0]

theorem recordResult_minLatency_of_zero_min (m : Metrics) (r : Result)
    (h : m.MinLatency = 0) : (recordResult m r).MinLatency = r.Latency := by
  rw [recordResult_minLatency]
  simp [h]

theorem recordResult_minLatency_pos (m : Metrics) (r : Result)
    (hm : 0 < m.MinLatency) :
    (recordResult m r).MinLatency = min m.MinLatency r.Latency := by
  rw [recordResult_minLatency]
  rcases lt_or_le r.Latency m.MinLatency with h | h
  · simp [h, Nat.min_eq_right h.le]
  · have : ¬ (m.MinLatency = 0 ∨ r.Latency < m.MinLatency) := by omega
    simp [this, Nat.min_eq_left h]

theorem foldl_recordResult_minLatency (rs : List Result) (m : Metrics)
    (hm : 0 < m.MinLatency) (hrs : ∀ r ∈ rs, 0 < r.Latency) :
    (rs.foldl recordResult m).MinLatency =
      (rs.map Result.Latency).foldl min m.MinLatency := by
  induction rs generalizing m with
  | nil => rfl
  | cons r rest ih =>
      have hr : 0 < r.Latency := hrs r (List.mem_cons_self r rest)
      have hstep : (recordResult m r).MinLatency = min m.MinLatency r.Latency :=
        recordResult_minLatency_pos m r hm
      simp only [List.foldl_cons, List.map_cons]
      rw [ih (recordResult m r) (by rw [hstep]; exact lt_min hm hr)
        (fun x hx => hrs x (List.mem_cons_of_mem r hx)), hstep]

theorem foldl_min_le_init (l : List ℕ) (a : ℕ) : l.foldl min a ≤ a := by
  induction l generalizing a with
  | nil => exact le_refl a
  | cons x xs ih => exact le_trans (ih (min a x)) (Nat.min_le_left a x)

theorem foldl_min_le_mem (l : List ℕ) (a : ℕ) : ∀ x ∈ l, l.foldl min a ≤ x := by
  induction l generalizing a with
  | nil => intro x hx; cases hx
  | cons y ys ih =>
      intro x hx
      rcases List.mem_cons.mp hx with rfl | hx
      · exact le_trans (foldl_min_le_init ys (min a x)) (Nat.min_le_right a x)
      · exact ih (min a y) x hx

theorem foldl_min_mem_or (l : List ℕ) (a : ℕ) : l.foldl min a = a ∨ l.foldl min a ∈ l := by
  induction l generalizing a with
  | nil => exact Or.inl rfl
  | cons x xs ih =>
      rcases ih (min a x) with h | h
      · rcases Nat.le_total a x with hax | hxa
        · exact Or.inl (by rw [List.foldl_cons, h, Nat.min_eq_left hax])
        · exact Or.inr (by rw [List.foldl_cons, h, Nat.min_eq_right hxa]; exact
            List.mem_cons_self x xs)
      · exact Or.inr (List.mem_cons_of_mem x h)

/-- C10: when every recorded latency is strictly positive, `MinLatency` ends as the
minimum of the recorded latencies (a member of them that bounds them all below);
recording a zero-latency result (as produced by request-generation or
request-construction failures) always resets `MinLatency` to `0`; with `MinLatency`
at `0` the next recorded latency overwrites it unconditionally; and without the
positivity precondition `MinLatency` can fail to be the minimum of the recorded
latencies. -/
theorem minLatency_tracks_minimum :
    (∀ rs : List Result, rs ≠ [] → (∀ r ∈ rs, 0 < r.Latency) →
        ((recordAll rs).MinLatency ∈ rs.map Result.Latency ∧
         ∀ r ∈ rs, (recordAll rs).MinLatency ≤ r.Latency)) ∧
    (∀ (m : Metrics) (r : Result), r.Latency = 0 → (recordResult m r).MinLatency = 0) ∧
    (∀ (m : Metrics) (r : Result), m.MinLatency = 0 →
        (recordResult m r).MinLatency = r.Latency) ∧
    (∃ rs : List Result,
        ¬ ((recordAll rs).MinLatency ∈ rs.map Result.Latency ∧
           ∀ r ∈ rs, (recordAll rs).MinLatency ≤ r.Latency)) := by
  refine ⟨?_, recordResult_minLatency_of_zero_latency,
    recordResult_minLatency_of_zero_min, ?_⟩
  · intro rs hne hpos
    obtain ⟨r, rest, rfl⟩ := List.exists_cons_of_ne_nil hne
    have hr : 0 < r.Latency := hpos r (List.mem_cons_self r rest)
    have hfirst : (recordResult initMetrics r).MinLatency = r.Latency :=
      recordResult_minLatency_of_zero_min initMetrics r rfl
    have hfold : (recordAll (r :: rest)).MinLatency =
        (rest.map Result.Latency).foldl min r.Latency := by
      simp only [recordAll, List.foldl_cons]
      rw [foldl_recordResult_minLatency rest (recordResult initMetrics r)
        (by rw [hfirst]; exact hr)
        (fun x hx => hpos x (List.mem_cons_of_mem r hx)), hfirst]
    constructor
    · rw [hfold, List.map_cons]
      rcases foldl_min_mem_or (rest.map Result.Latency) r.Latency with h | h
      · rw [h]; exact List.mem_cons_self _ _
      · exact List.mem_cons_of_mem _ h
    · intro x hx
      rw [hfold]
      rcases List.mem_cons.mp hx with rfl | hx
      · exact foldl_min_le_init _ _
      · exact foldl_min_le_mem _ _ x.Latency (List.mem_map_of_mem Result.Latency hx)
  · exact ⟨[genFailureResult "boom", httpResult 204 5], by decide⟩

/-- Concrete instance of `minLatency_tracks_minimum`: with the positive recorded
latencies 7 and 3, `MinLatency` ends at a recorded latency that bounds both. -/
theorem minLatency_tracks_minimum_witness :
    (recordAll [httpResult 200 7, httpResult 500 3]).MinLatency ∈
        [httpResult 200 7, httpResult 500 3].map Result.Latency ∧
    ∀ r ∈ [httpResult 200 7, httpResult 500 3],
        (recordAll [httpResult 200 7, httpResult 500 3]).MinLatency ≤ r.Latency :=
  minLatency_tracks_minimum.1 [httpResult 200 7, httpResult 500 3]
    (by decide) (by decide)

/-! ## Metric conversion and histograms (`runBenchmarks`, users mode) -/

theorem recordResult_results (m : Metrics) (r : Result) :
    (recordResult m r).Results = m.Results ++ [r] := by
  simp only [recordResult]
  split <;> split <;> split <;> rfl

theorem recordResult_successRate (m : Metrics) (r : Result) :
    (recordResult m r).SuccessRate = m.SuccessRate := by
  simp only [recordResult]
  split <;> split <;> split <;> rfl

theorem foldl_recordResult_results (rs : List Result) (m : Metrics) :
    (rs.foldl recordResult m).Results = m.Results ++ rs := by
  induction rs generalizing m with
  | nil => simp
  | cons r rest ih => simp [ih, recordResult_results]

theorem foldl_recordResult_successRate (rs : List Result) (m : Metrics) :
    (rs.foldl recordResult m).SuccessRate = m.SuccessRate := by
  induction rs generalizing m with
  | nil => rfl
  | cons r rest ih => rw [List.foldl_cons, ih, recordResult_successRate]

/-- A Go `map[string]int` increment `m[k]++`, over total counting functions. -/
def bump (m : String → Nat) (k : String) : String → Nat :=
  fun x => if x = k then m x + 1 else m x

/-- The per-result step of the status-code / drop-reason loop of `runBenchmarks`
(users mode): successes bump `statusCodes["200"]`; failures with a positive status
code bump `statusCodes[code]` and `dropReasons["HTTP <code>"]`; other failures bump
`dropReasons[result.Error]`. -/
def classifyResult (acc : (String → Nat) × (String → Nat)) (result : Result) :
    (String → Nat) × (String → Nat) :=
  if result.Success then (bump acc.1 "200", acc.2)
  else if 0 < result.StatusCode then
    (bump acc.1 (toString result.StatusCode),
     bump acc.2 ("HTTP " ++ toString result.StatusCode))
  else (acc.1, bump acc.2 result.Error)

def emptyCount : String → Nat := fun _ => 0

/-- The status-code and drop-reason histograms built from the recorded results. -/
def statusHistogram (rs : List Result) : (String → Nat) × (String → Nat) :=
  rs.foldl classifyResult (emptyCount, emptyCount)

def statusCodesOf (rs : List Result) : String → Nat := (statusHistogram rs).1

def dropReasonsOf (rs : List Result) : String → Nat := (statusHistogram rs).2

structure LatencyStats where
  Mean : Nat
  P50 : Nat
  P99 : Nat
  Max : Nat
  Min : Nat

/-- The fields of `vegeta.Metrics` that the users-mode conversion fills in. -/
structure VegetaMetrics where
  Requests : Nat
  Success : ℚ
  Latencies : LatencyStats
  StatusCodes : String → Nat
  Rate : ℚ
  Throughput : ℚ

/-- The conversion of concurrent-runner metrics into the vegeta metrics shape
(`runBenchmarks`, users mode): `Success` is the guarded quotient, `Mean` the guarded
integer quotient of cumulative latency by `TotalRequests`, `Rate`/`Throughput` the
request count over the configured duration. -/
def convertMetrics (cm : Metrics) (duration : ℚ) : VegetaMetrics :=
  { Requests := cm.TotalRequests
    Success :=
      if 0 < cm.TotalRequests then (cm.SuccessCount : ℚ) / (cm.TotalRequests : ℚ) else 0
    Latencies :=
      { Mean := if 0 < cm.TotalRequests then cm.TotalLatency / cm.TotalRequests else 0
        P50 := 0
        P99 := 0
        Max := cm.MaxLatency
        Min := cm.MinLatency }
    StatusCodes := statusCodesOf cm.Results
    Rate := (cm.TotalRequests : ℚ) / duration
    Throughput := (cm.TotalRequests : ℚ) / duration }

/-- The mean-latency formula in the claim's words: cumulative recorded latency
divided by the number of recorded outcomes that produced a measured latency.  In
this embedding an outcome produced a measured latency exactly when its stored
latency is nonzero: request-generation and request-construction failures store the
zero value without measuring. -/
def claimedMeanLatency (rs : List Result) : Nat :=
  (rs.map Result.Latency).sum / (rs.filter fun r => decide (0 < r.Latency)).length

theorem recordAll_totalRequests (rs : List Result) :
    (recordAll rs).TotalRequests = rs.length := by
  have h := foldl_recordResult_totalRequests rs initMetrics
  simpa [recordAll, initMetrics] using h

theorem recordAll_totalLatency (rs : List Result) :
    (recordAll rs).TotalLatency = (rs.map Result.Latency).sum := by
  have h := foldl_recordResult_totalLatency rs initMetrics
  simpa [recordAll, initMetrics] using h

theorem recordAll_successCount (rs : List Result) :
    (recordAll rs).SuccessCount = rs.countP (·.Success) := by
  have h := foldl_recordResult_successCount rs initMetrics
  simpa [recordAll, initMetrics] using h

theorem recordAll_successRate (rs : List Result) :
    (recordAll rs).SuccessRate = 0 := by
  have h := foldl_recordResult_successRate rs initMetrics
  simpa [recordAll, initMetrics] using h

theorem recordAll_results (rs : List Result) : (recordAll rs).Results = rs := by
  have h := foldl_recordResult_results rs initMetrics
  simpa [recordAll, initMetrics] using h

/-- C6 counterexample: one success with measured latency 10 and one
request-generation failure with no measured latency.  The code reports mean
latency `(10 + 0) / 2 = 5`, while the claim's formula (divisor restricted to
outcomes that produced a measured latency) gives `10 / 1 = 10`. -/
theorem mean_latency_counterexample :
    (convertMetrics (recordAll [httpResult 200 10, genFailureResult "boom"])
        1).Latencies.Mean = 5 ∧
    claimedMeanLatency [httpResult 200 10, genFailureResult "boom"] = 10 ∧
    (5 : Nat) ≠ 10 := by
  refine ⟨?_, by decide, by decide⟩
  rfl

/-- C6 (amended): the users-mode mean latency is the cumulative recorded latency
divided (integer division) by the total number of recorded outcomes — including
outcomes that produced no measured latency — and `0` when there are none. -/
theorem mean_latency_over_all_outcomes (rs : List Result) (d : ℚ) :
    (convertMetrics (recordAll rs) d).Latencies.Mean =
      (rs.map Result.Latency).sum / rs.length := by
  cases rs with
  | nil => rfl
  | cons r rest =>
      simp only [convertMetrics]
      rw [recordAll_totalRequests, recordAll_totalLatency]
      simp

/-- C7: the users-mode success rate is `successes / total` exactly (with the junk
value `0` at an empty denominator), it is exactly `0` when `TotalRequests = 0`, and
the runner's percentage `SuccessRate` is `100` times it. -/
theorem success_rate_correct (rs : List Result) (d : ℚ) :
    ((convertMetrics (recordAll rs) d).Success =
        (rs.countP (·.Success) : ℚ) / (rs.length : ℚ)) ∧
    ((recordAll rs).TotalRequests = 0 →
        (convertMetrics (recordAll rs) d).Success = 0 ∧
        (runFinalize (recordAll rs)).SuccessRate = 0) ∧
    (runFinalize (recordAll rs)).SuccessRate =
      100 * (convertMetrics (recordAll rs) d).Success := by
  refine ⟨?_, ?_, ?_⟩
  · simp only [convertMetrics]
    rw [recordAll_totalRequests, recordAll_successCount]
    cases rs with
    | nil => simp
    | cons r rest => simp
  · intro h0
    rw [recordAll_totalRequests] at h0
    have : rs = [] := List.length_eq_zero.mp h0
    subst this
    exact ⟨rfl, rfl⟩
  · simp only [convertMetrics, runFinalize]
    rcases Nat.eq_zero_or_pos (recordAll rs).TotalRequests with h | h
    · simp [h, recordAll_successRate]
    · simp only [h, if_pos]
      ring

/-- Instance of `success_rate_correct` at the empty run: with no recorded
outcomes, both the converted success rate and the runner's percentage are `0`. -/
theorem success_rate_correct_witness :
    (convertMetrics (recordAll ([] : List Result)) 1).Success = 0 ∧
    (runFinalize (recordAll ([] : List Result))).SuccessRate = 0 :=
  (success_rate_correct [] 1).2.1 rfl

theorem classifyResult_fst (acc : (String → Nat) × (String → Nat)) (r : Result)
    (k : String) :
    (classifyResult acc r).1 k = acc.1 k +
      ((if r.Success ∧ k = "200" then 1 else 0) +
       (if ¬r.Success ∧ 0 < r.StatusCode ∧ k = toString r.StatusCode then 1 else 0)) := by
  simp only [classifyResult, bump]
  by_cases hs : r.Success
  · by_cases hk : k = "200" <;> simp [hs, hk, bump]
  · by_cases hc : 0 < r.StatusCode
    · by_cases hk : k = toString r.StatusCode <;> simp [hs, hc, hk, bump]
    · simp [hs, hc]

theorem classifyResult_snd (acc : (String → Nat) × (String → Nat)) (r : Result)
    (e : String) :
    (classifyResult acc r).2 e = acc.2 e +
      ((if ¬r.Success ∧ 0 < r.StatusCode ∧ e = "HTTP " ++ toString r.StatusCode
        then 1 else 0) +
       (if ¬r.Success ∧ ¬0 < r.StatusCode ∧ e = r.Error then 1 else 0)) := by
  simp only [classifyResult, bump]
  by_cases hs : r.Success
  · simp [hs]
  · by_cases hc : 0 < r.StatusCode
    · by_cases he : e = "HTTP " ++ toString r.StatusCode <;> simp [hs, hc, he, bump]
    · by_cases he : e = r.Error <;> simp [hs, hc, he, bump]

theorem foldl_classifyResult_fst (rs : List Result)
    (acc : (String → Nat) × (String → Nat)) (k : String) :
    (rs.foldl classifyResult acc).1 k = acc.1 k +
      ((rs.countP fun r => r.Success && decide (k = "200")) +
       (rs.countP fun r =>
          !r.Success && decide (0 < r.StatusCode) && decide (k = toString r.StatusCode))) := by
  induction rs generalizing acc with
  | nil => simp
  | cons r rest ih =>
      rw [List.foldl_cons, ih, classifyResult_fst]
      simp only [List.countP_cons, Bool.and_eq_true, Bool.not_eq_true',
        decide_eq_true_eq]
      by_cases hs : r.Success <;> by_cases hc : 0 < r.StatusCode <;>
        by_cases h2 : k = "200" <;> by_cases hk : k = toString r.StatusCode <;>
        simp [hs, hc, h2, hk] <;> omega

theorem foldl_classifyResult_snd (rs : List Result)
    (acc : (String → Nat) × (String → Nat)) (e : String) :
    (rs.foldl classifyResult acc).2 e = acc.2 e +
      ((rs.countP fun r =>
          !r.Success && decide (0 < r.StatusCode) &&
            decide (e = "HTTP " ++ toString r.StatusCode)) +
       (rs.countP fun r =>
          !r.Success && !decide (0 < r.StatusCode) && decide (e = r.Error))) := by
  induction rs generalizing acc with
  | nil => simp
  | cons r rest ih =>
      rw [List.foldl_cons, ih, classifyResult_snd]
      simp only [List.countP_cons, Bool.and_eq_true, Bool.not_eq_true',
        decide_eq_true_eq]
      by_cases hs : r.Success <;> by_cases hc : 0 < r.StatusCode <;>
        by_cases hh : e = "HTTP " ++ toString r.StatusCode <;>
        by_cases he : e = r.Error <;> simp [hs, hc, hh, he] <;> omega

/-- C8 counterexample: a successful outcome with actual HTTP status 204 is grouped
under the key `"200"`, not under `"204"`, so the histogram does not group each
outcome under its actual status code. -/
theorem status_histogram_counterexample :
    (httpResult 204 5).Success = true ∧
    (httpResult 204 5).StatusCode = 204 ∧
    statusCodesOf [httpResult 204 5] "204" = 0 ∧
    statusCodesOf [httpResult 204 5] "200" = 1 := by
  refine ⟨by decide, by decide, ?_, ?_⟩ <;> rfl

/-- C8 (amended): in the users-mode histograms, every successful outcome is counted
under the key `"200"` regardless of its actual status code; every failed outcome
with a positive status code is counted under its own status-code string (and under
`"HTTP <code>"` among the drop reasons); transport failures (status `0`, more
generally non-positive) appear only in the drop-reason histogram, under their
failure-reason string, never under a status-code key. -/
theorem status_histogram_grouping (rs : List Result) (k e : String) :
    statusCodesOf rs k =
      (rs.countP fun r => r.Success && decide (k = "200")) +
      (rs.countP fun r =>
        !r.Success && decide (0 < r.StatusCode) && decide (k = toString r.StatusCode)) ∧
    dropReasonsOf rs e =
      (rs.countP fun r =>
        !r.Success && decide (0 < r.StatusCode) &&
          decide (e = "HTTP " ++ toString r.StatusCode)) +
      (rs.countP fun r =>
        !r.Success && !decide (0 < r.StatusCode) && decide (e = r.Error)) := by
  constructor
  · have h := foldl_classifyResult_fst rs (emptyCount, emptyCount) k
    simpa [statusCodesOf, statusHistogram, emptyCount] using h
  · have h := foldl_classifyResult_snd rs (emptyCount, emptyCount) e
    simpa [dropReasonsOf, statusHistogram, emptyCount] using h

/-! ## `saveResults`: read-merge-write of the persisted results document -/

/-- Source type `ServerMemStat`: one timestamped server-memory snapshot (timestamp in
nanoseconds, RSS/VMS in bytes, percentage over `ℚ`). -/
structure ServerMemStat where
  Timestamp : Nat
  RSS : Nat
  VMS : Nat
  MemPercent : ℚ

/-- Source type `BenchmarkResult`: the aggregated outcome of one provider's run. -/
structure BenchmarkResult where
  ProviderName : String
  Metrics : VegetaMetrics
  CPUUsage : ℚ
  ServerMemoryStats : List ServerMemStat
  DropReasons : String → Nat

/-- Source type `SerializableResult`: one entry of the persisted JSON results document. -/
structure SerializableResult where
  Requests : Nat
  Rate : ℚ
  SuccessRate : ℚ
  MeanLatencyMs : ℚ
  P50LatencyMs : ℚ
  P99LatencyMs : ℚ
  MaxLatencyMs : ℚ
  ThroughputRPS : ℚ
  Timestamp : String
  StatusCodeCounts : String → Nat
  ServerPeakMemoryMB : ℚ
  ServerAvgMemoryMB : ℚ
  DropReasons : String → Nat

/-- The summary `saveResults` computes for one `BenchmarkResult` (latencies
converted from nanoseconds to milliseconds, memory from bytes to megabytes;
`now` stands for the `time.Now()` RFC-3339 timestamp). -/
def serializeResult (res : BenchmarkResult) (now : String) : SerializableResult :=
  let peakMem := (res.ServerMemoryStats.map ServerMemStat.RSS).foldl max 0
  let totalMem := (res.ServerMemoryStats.map ServerMemStat.RSS).sum
  let avgMem : ℚ :=
    if 0 < res.ServerMemoryStats.length then
      (totalMem : ℚ) / (res.ServerMemoryStats.length : ℚ) / (1024 * 1024)
    else 0
  { Requests := res.Metrics.Requests
    Rate := res.Metrics.Rate
    SuccessRate := 100 * res.Metrics.Success
    MeanLatencyMs := (res.Metrics.Latencies.Mean : ℚ) / 1000000
    P50LatencyMs := (res.Metrics.Latencies.P50 : ℚ) / 1000000
    P99LatencyMs := (res.Metrics.Latencies.P99 : ℚ) / 1000000
    MaxLatencyMs := (res.Metrics.Latencies.Max : ℚ) / 1000000
    ThroughputRPS := res.Metrics.Throughput
    Timestamp := now
    StatusCodeCounts := res.Metrics.StatusCodes
    ServerPeakMemoryMB := (peakMem : ℚ) / (1024 * 1024)
    ServerAvgMemoryMB := avgMem
    DropReasons := res.DropReasons }

/-- Go's `strings.ToLower`, as a character-wise lowercasing (Lean's own
`String.toLower` is defined by well-founded recursion and does not reduce in the
kernel; this structural definition maps `Char.toLower` over the characters). -/
def lowercase (s : String) : String := ⟨s.data.map Char.toLower⟩

/-- A Go map assignment `doc[k] = v` on the keyed results document. -/
def mapInsert (doc : String → Option SerializableResult) (k : String)
    (v : SerializableResult) : String → Option SerializableResult :=
  fun x => if x = k then some v else doc x

/-- The merge loop of `saveResults`:
`resultsMap[strings.ToLower(res.ProviderName)] = SerializableResult{...}` for each
benchmarked result, over the previously read document. -/
def mergeResults (prior : String → Option SerializableResult)
    (results : List BenchmarkResult) (now : String) :
    String → Option SerializableResult :=
  results.foldl
    (fun doc res => mapInsert doc (lowercase res.ProviderName) (serializeResult res now))
    prior

/-- The possible states of the existing results file as `saveResults` observes
them: absent (`os.Stat` fails), unreadable (`os.ReadFile` fails), present but not
valid JSON (`sonic.Unmarshal` fails), or parsed. -/
inductive ExistingFile where
  | absent
  | readFailure (msg : String)
  | unparsable (msg : String)
  | parsed (doc : String → Option SerializableResult)

/-- The observable outcome of one `saveResults` call: warnings logged, a fatal
`log.Fatalf` (which halts the run) if any, and the document written on success. -/
structure SaveOutcome where
  warnings : List String
  fatalError : Option String
  written : Option (String → Option SerializableResult)

def emptyDoc : String → Option SerializableResult := fun _ => none

/-- Function `saveResults`, with its file-system effects abstracted as parameters: the state
of the existing file, and whether `sonic.MarshalIndent` and `os.WriteFile`
succeed.  An unreadable or unparsable existing file yields a logged warning and an
empty starting document; a marshal or write failure yields `log.Fatalf`. -/
def saveResults (existing : ExistingFile) (marshalOk writeOk : Bool)
    (results : List BenchmarkResult) (now : String) : SaveOutcome :=
  let red : (String → Option SerializableResult) × List String :=
    match existing with
    | .absent => (emptyDoc, [])
    | .readFailure msg =>
        (emptyDoc, ["Warning: Could not read existing results file: " ++ msg])
    | .unparsable msg =>
        (emptyDoc, ["Warning: Could not parse existing results file: " ++ msg])
    | .parsed doc => (doc, [])
  let merged := mergeResults red.1 results now
  if marshalOk = false then
    { warnings := red.2, fatalError := some "Error marshaling results"
      written := none }
  else if writeOk = false then
    { warnings := red.2, fatalError := some "Error writing results to file"
      written := none }
  else
    { warnings := red.2, fatalError := none, written := some merged }

/-- C5: merging a benchmarked target fully replaces the key
`lowercase(providerName)` with the newly computed summary, and every other key of
the prior document is written back unchanged; more generally a whole merge never
touches a key that is not the lowercase name of one of its targets. -/
theorem merge_replaces_key_and_preserves_others
    (prior : String → Option SerializableResult) (res : BenchmarkResult)
    (now : String) :
    (mergeResults prior [res] now (lowercase res.ProviderName) =
        some (serializeResult res now)) ∧
    (∀ key, key ≠ lowercase res.ProviderName →
        mergeResults prior [res] now key = prior key) ∧
    (∀ (results : List BenchmarkResult) (key : String),
        (∀ r ∈ results, key ≠ lowercase r.ProviderName) →
        mergeResults prior results now key = prior key) := by
  refine ⟨by simp [mergeResults, mapInsert], fun key hk => ?_, fun results key hk => ?_⟩
  · simp [mergeResults, mapInsert, hk]
  · induction results generalizing prior with
    | nil => rfl
    | cons r rest ih =>
        have hr : key ≠ lowercase r.ProviderName := hk r (List.mem_cons_self r rest)
        have hrest : ∀ x ∈ rest, key ≠ lowercase x.ProviderName :=
          fun x hx => hk x (List.mem_cons_of_mem r hx)
        simp only [mergeResults, List.foldl_cons] at *
        rw [ih _ hrest]
        simp [mapInsert, hr]

/-- Instance of `merge_replaces_key_and_preserves_others`: merging a target named
`"A"` leaves the entry stored under the unrelated key `"b"` unchanged. -/
theorem merge_preserves_others_witness :
    mergeResults
        (fun k => if k = "b" then
          some (serializeResult
            { ProviderName := "b"
              Metrics := convertMetrics (recordAll []) 1
              CPUUsage := 0
              ServerMemoryStats := []
              DropReasons := emptyCount } "t0") else none)
        [{ ProviderName := "A"
           Metrics := convertMetrics (recordAll []) 1
           CPUUsage := 0
           ServerMemoryStats := []
           DropReasons := emptyCount }] "t1" "b" =
      some (serializeResult
        { ProviderName := "b"
          Metrics := convertMetrics (recordAll []) 1
          CPUUsage := 0
          ServerMemoryStats := []
          DropReasons := emptyCount } "t0") :=
  ((merge_replaces_key_and_preserves_others _ _ "t1").2.1 "b" (by decide)).trans
    (by simp)

/-- C9: a present-but-unparsable results file produces a logged warning, an empty
starting document and no fatal error (the run continues and the merged document is
still written); a failing final write produces a fatal error and no written
document. -/
theorem saveResults_error_handling (msg now : String)
    (results : List BenchmarkResult) (existing : ExistingFile) :
    ((saveResults (.unparsable msg) true true results now).fatalError = none ∧
     (saveResults (.unparsable msg) true true results now).warnings =
        ["Warning: Could not parse existing results file: " ++ msg] ∧
     (saveResults (.unparsable msg) true true results now).written =
        some (mergeResults emptyDoc results now)) ∧
    ((saveResults existing true false results now).fatalError =
        some "Error writing results to file" ∧
     (saveResults existing true false results now).written = none) :=
  ⟨⟨rfl, rfl, rfl⟩, rfl, rfl⟩

/-! ## The runner's task system: semaphore, workers and detached requests

A small-step model of `Runner.Run`'s concurrency structure.  `wg` is the
`sync.WaitGroup` counter (incremented once per spawned worker, decremented when a
worker returns); `pendingSlots` counts semaphore tokens a worker has sent
(`r.semaphore <- struct{}{}`) whose `makeRequest` goroutine has not begun running;
`executing` counts `makeRequest` goroutines currently running (each holds its token
until its deferred `<-r.semaphore` on exit); `recorded` counts completed
`makeRequest` calls (each records exactly one `Result`); `returned` is set when
`wg.Wait()` observes a zero counter and `Run` returns. -/

structure RunnerTaskState where
  workersLive : Nat
  wg : Nat
  pendingSlots : Nat
  executing : Nat
  recorded : Nat
  returned : Bool
deriving DecidableEq, Repr

def initTaskState : RunnerTaskState :=
  { workersLive := 0, wg := 0, pendingSlots := 0, executing := 0, recorded := 0
    returned := false }

/-- One step of the runner's task system with semaphore capacity `N`
(`semaphore := make(chan struct{}, numUsers)`):

* `spawnWorker` — `r.wg.Add(1); go r.worker(ctx)` (all spawns happen before
  `wg.Wait()` returns);
* `acquireSlot` — a live worker's send on the semaphore channel succeeds, which
  requires the buffer (held tokens: pending + executing) to be below capacity;
* `beginRequest` — the spawned `go r.makeRequest()` goroutine starts running;
* `finishRequest` — a running `makeRequest` records its result and releases its
  token via the deferred receive;
* `workerExit` — a worker observes context cancellation and returns
  (`defer r.wg.Done()`);
* `runReturn` — `wg.Wait()` observes counter zero and `Run` returns. -/
inductive RunnerStep (N : Nat) : RunnerTaskState → RunnerTaskState → Prop
  | spawnWorker (s : RunnerTaskState) (h : s.returned = false) :
      RunnerStep N s { s with workersLive := s.workersLive + 1, wg := s.wg + 1 }
  | acquireSlot (s : RunnerTaskState) (hw : 0 < s.workersLive)
      (hcap : s.pendingSlots + s.executing < N) :
      RunnerStep N s { s with pendingSlots := s.pendingSlots + 1 }
  | beginRequest (s : RunnerTaskState) (hp : 0 < s.pendingSlots) :
      RunnerStep N s
        { s with pendingSlots := s.pendingSlots - 1, executing := s.executing + 1 }
  | finishRequest (s : RunnerTaskState) (he : 0 < s.executing) :
      RunnerStep N s
        { s with executing := s.executing - 1, recorded := s.recorded + 1 }
  | workerExit (s : RunnerTaskState) (hw : 0 < s.workersLive) :
      RunnerStep N s { s with workersLive := s.workersLive - 1, wg := s.wg - 1 }
  | runReturn (s : RunnerTaskState) (hwg : s.wg = 0) (h : s.returned = false) :
      RunnerStep N s { s with returned := true }

/-- The states reachable by the runner's task system from the initial state. -/
inductive RunnerReachable (N : Nat) : RunnerTaskState → Prop
  | init : RunnerReachable N initTaskState
  | step {s t : RunnerTaskState} (hr : RunnerReachable N s) (hs : RunnerStep N s t) :
      RunnerReachable N t

theorem runnerReachable_slots_le (N : Nat) (s : RunnerTaskState)
    (h : RunnerReachable N s) : s.pendingSlots + s.executing ≤ N := by
  induction h with
  | init => exact Nat.zero_le N
  | step hr hs ih =>
      cases hs with
      | spawnWorker h => exact ih
      | acquireSlot hw hcap => dsimp only; omega
      | beginRequest hp => dsimp only; omega
      | finishRequest he => dsimp only; omega
      | workerExit hw => exact ih
      | runReturn hwg h => exact ih

/-- C1: for every capacity `N ≥ 1`, in every reachable state of the runner's task
system at most `N` `makeRequest` goroutines are executing: every execution of
`makeRequest` holds a token of the capacity-`N` semaphore from before it is spawned
until its deferred release, and tokens never exceed the capacity. -/
theorem concurrent_requests_bounded (N : Nat) (_hN : 1 ≤ N) (s : RunnerTaskState)
    (h : RunnerReachable N s) : s.executing ≤ N :=
  le_trans (Nat.le_add_left s.executing s.pendingSlots) (runnerReachable_slots_le N s h)

/-- Instance of `concurrent_requests_bounded` at capacity 2, on the state reached
by spawning a worker that acquires a slot and starts a request. -/
theorem concurrent_requests_bounded_witness :
    ({ workersLive := 1, wg := 1, pendingSlots := 0, executing := 1, recorded := 0
       returned := false } : RunnerTaskState).executing ≤ 2 :=
  concurrent_requests_bounded 2 (by decide) _
    (RunnerReachable.step
      (RunnerReachable.step
        (RunnerReachable.step RunnerReachable.init
          (RunnerStep.spawnWorker initTaskState rfl))
        (RunnerStep.acquireSlot _ (by decide) (by decide)))
      (RunnerStep.beginRequest _ (by decide)))

/-- C2 counterexample: with `N = 1`, the runner can spawn a worker, have it admit
one `makeRequest` goroutine, and then exit on cancellation; `wg` is then zero, so
`wg.Wait()` lets `Run` return while the detached `makeRequest` goroutine is still
executing and its result is not yet recorded.  Hence it is false that `Run` returns
only after every task it spawned has completed. -/
theorem run_can_return_before_requests_finish :
    RunnerReachable 1
      { workersLive := 0, wg := 0, pendingSlots := 0, executing := 1, recorded := 0
        returned := true } ∧
    ¬ (∀ s : RunnerTaskState, RunnerReachable 1 s → s.returned = true →
        s.executing = 0) := by
  have htrace : RunnerReachable 1
      { workersLive := 0, wg := 0, pendingSlots := 0, executing := 1, recorded := 0
        returned := true } :=
    RunnerReachable.step
      (RunnerReachable.step
        (RunnerReachable.step
          (RunnerReachable.step
            (RunnerReachable.step RunnerReachable.init
              (RunnerStep.spawnWorker initTaskState rfl))
            (RunnerStep.acquireSlot _ (by decide) (by decide)))
          (RunnerStep.beginRequest _ (by decide)))
        (RunnerStep.workerExit _ (by decide)))
      (RunnerStep.runReturn _ rfl rfl)
  exact ⟨htrace, fun hall => by have := hall _ htrace rfl; simp at this⟩

/-- C2 (amended): the `WaitGroup` counter always equals the number of live worker
goroutines, so `Run` returns only after every *worker* it spawned has exited; the
detached `makeRequest` goroutines are not tracked by the `WaitGroup` and may still
be executing after `Run` has returned. -/
theorem run_waits_for_workers (N : Nat) (s : RunnerTaskState)
    (h : RunnerReachable N s) :
    s.wg = s.workersLive ∧ (s.returned = true → s.workersLive = 0) := by
  induction h with
  | init => exact ⟨rfl, fun _ => rfl⟩
  | step hr hs ih =>
      obtain ⟨ih1, ih2⟩ := ih
      cases hs with
      | spawnWorker h =>
          refine ⟨by dsimp only; omega, fun hret => ?_⟩
          dsimp only at hret
          rw [h] at hret
          exact Bool.noConfusion hret
      | acquireSlot hw hcap => exact ⟨ih1, ih2⟩
      | beginRequest hp => exact ⟨ih1, ih2⟩
      | finishRequest he => exact ⟨ih1, ih2⟩
      | workerExit hw =>
          refine ⟨by dsimp only; omega, fun hret => ?_⟩
          dsimp only at hret ⊢
          have h0 := ih2 hret
          omega
      | runReturn hwg h =>
          refine ⟨by dsimp only; exact ih1, fun _ => by dsimp only; omega⟩

/-- Instance of `run_waits_for_workers` on the state reached by returning
immediately from a run that spawned no worker. -/
theorem run_waits_for_workers_witness :
    ({ initTaskState with returned := true } : RunnerTaskState).wg =
        ({ initTaskState with returned := true } : RunnerTaskState).workersLive ∧
    (({ initTaskState with returned := true } : RunnerTaskState).returned = true →
        ({ initTaskState with returned := true } : RunnerTaskState).workersLive = 0) :=
  run_waits_for_workers 1 _
    (RunnerReachable.step RunnerReachable.init
      (RunnerStep.runReturn initTaskState rfl rfl))

/-! ## The ramp-up scheduler (`runWithRampUp`)

The 100ms-ticker loop is modelled as a fold of the per-tick body over the sequence
of elapsed times (in seconds, exact over `ℚ`) at which the ticker fires.  Go's
`int(float64(numUsers) * elapsed.Seconds() / rampUpDuration.Seconds())` truncates
toward zero, which on the nonnegative values arising here is the floor; the
`float64` arithmetic is modelled exactly over `ℚ`. -/

structure RampState where
  workersStarted : Nat
  rampUpStarted : Bool
  rampDone : Bool
deriving DecidableEq, Repr

def initRampState : RampState :=
  { workersStarted := 0, rampUpStarted := false, rampDone := false }

/-- Computation `targetWorkers` of one ramp-up tick:
`int(float64(numUsers) * elapsed / rampUpDuration)`, clamped below at `1`. -/
def rampTarget (numUsers : Nat) (elapsed rampDur : ℚ) : Nat :=
  max 1 (Int.toNat ⌊(numUsers : ℚ) * elapsed / rampDur⌋)

/-- The body of one `rampUpTicker` tick of `runWithRampUp` at elapsed time
`elapsed`: the very first tick starts one worker and continues; while
`elapsed < rampUpDuration` the loop starts workers until `workersStarted` reaches
`min targetWorkers numUsers`; once `elapsed ≥ rampUpDuration` it starts all
remaining workers up to `numUsers`, stops the ticker and returns. -/
def rampTick (numUsers : Nat) (rampDur : ℚ) (s : RampState) (elapsed : ℚ) :
    RampState :=
  if s.rampDone then s
  else if s.rampUpStarted = false then
    { workersStarted := 1, rampUpStarted := true, rampDone := false }
  else if elapsed < rampDur then
    let tgt := min (rampTarget numUsers elapsed rampDur) numUsers
    { s with workersStarted := max s.workersStarted tgt }
  else
    { s with workersStarted := max s.workersStarted numUsers, rampDone := true }

/-- The scheduler state after processing the ticks at the given elapsed times. -/
def rampRun (numUsers : Nat) (rampDur : ℚ) (ticks : List ℚ) : RampState :=
  ticks.foldl (rampTick numUsers rampDur) initRampState

theorem rampTarget_mono (numUsers : Nat) (rampDur : ℚ) (hR : 0 < rampDur)
    {t u : ℚ} (h : t ≤ u) :
    rampTarget numUsers t rampDur ≤ rampTarget numUsers u rampDur := by
  have hdiv : (numUsers : ℚ) * t / rampDur ≤ (numUsers : ℚ) * u / rampDur :=
    (div_le_div_iff_of_pos_right hR).mpr (mul_le_mul_of_nonneg_left h (by positivity))
  exact max_le_max (le_refl 1) (Int.toNat_le_toNat (Int.floor_le_floor hdiv))

theorem rampTarget_one_le (numUsers : Nat) (elapsed rampDur : ℚ) :
    1 ≤ rampTarget numUsers elapsed rampDur :=
  le_max_left 1 _

theorem rampTarget_le (numUsers : Nat) (hN : 1 ≤ numUsers) {t rampDur : ℚ}
    (hR : 0 < rampDur) (htR : t < rampDur) :
    rampTarget numUsers t rampDur ≤ numUsers := by
  have hNQ : (0 : ℚ) < numUsers := by exact_mod_cast hN
  have hq : (numUsers : ℚ) * t / rampDur < (numUsers : ℚ) := by
    rw [div_lt_iff₀ hR]
    exact mul_lt_mul_of_pos_left htR hNQ
  have hfl : ⌊(numUsers : ℚ) * t / rampDur⌋ ≤ (numUsers : ℤ) := by
    have h2 : ⌊(numUsers : ℚ) * t / rampDur⌋ < (numUsers : ℤ) :=
      Int.floor_lt.mpr (by exact_mod_cast hq)
    omega
  exact max_le hN (Int.toNat_le.mpr hfl)

theorem rampTick_started_le (numUsers : Nat) (hN : 1 ≤ numUsers) (rampDur : ℚ)
    (s : RampState) (t : ℚ) (hs : s.workersStarted ≤ numUsers) :
    (rampTick numUsers rampDur s t).workersStarted ≤ numUsers := by
  unfold rampTick
  split
  · exact hs
  · split
    · exact hN
    · split
      · exact max_le hs (min_le_right _ _)
      · exact max_le hs (le_refl _)

theorem foldl_rampTick_started_le (numUsers : Nat) (hN : 1 ≤ numUsers)
    (rampDur : ℚ) (ticks : List ℚ) (s : RampState)
    (hs : s.workersStarted ≤ numUsers) :
    (ticks.foldl (rampTick numUsers rampDur) s).workersStarted ≤ numUsers := by
  induction ticks generalizing s with
  | nil => exact hs
  | cons t rest ih =>
      exact ih _ (rampTick_started_le numUsers hN rampDur s t hs)

theorem foldl_rampTick_inRamp (numUsers : Nat)
    (rampDur : ℚ) (hR : 0 < rampDur) (u : ℚ) (ticks : List ℚ) (s : RampState)
    (hticks : ∀ x ∈ ticks, 0 ≤ x ∧ x < rampDur ∧ x ≤ u)
    (hstart : s.rampUpStarted = true) (hdone : s.rampDone = false)
    (hsN : s.workersStarted ≤ numUsers)
    (hsu : s.workersStarted ≤ rampTarget numUsers u rampDur) :
    (ticks.foldl (rampTick numUsers rampDur) s).rampUpStarted = true ∧
    (ticks.foldl (rampTick numUsers rampDur) s).rampDone = false ∧
    (ticks.foldl (rampTick numUsers rampDur) s).workersStarted ≤ numUsers ∧
    (ticks.foldl (rampTick numUsers rampDur) s).workersStarted ≤
      rampTarget numUsers u rampDur := by
  induction ticks generalizing s with
  | nil => exact ⟨hstart, hdone, hsN, hsu⟩
  | cons x rest ih =>
      obtain ⟨hx0, hxR, hxu⟩ := hticks x (List.mem_cons_self x rest)
      have hstep : rampTick numUsers rampDur s x = { s with workersStarted := max s.workersStarted (min (rampTarget numUsers x rampDur) numUsers) } := by
        unfold rampTick
        rw [hdone, hstart]
        simp [hxR]
      rw [List.foldl_cons, hstep]
      exact ih _ (fun y hy => hticks y (List.mem_cons_of_mem x hy)) hstart hdone
        (max_le hsN (min_le_right _ _))
        (max_le hsu (le_trans (min_le_left _ _) (rampTarget_mono numUsers rampDur hR hxu)))

/-- C4: with `1 ≤ N`, `0 < R ≤ D`, for the ramp-up scheduler of `runWithRampUp`:
(1) the started-worker count never exceeds `N`, over any tick sequence;
(2) after the tick processed at elapsed time `t < R` (with at least one earlier
tick, so the first-tick special case is past, and all intermediate ticks in-ramp
and no later than `t`), the started-worker count equals the time-based target
`max 1 ⌊N·t/R⌋` — i.e. it tracks the target at tick granularity;
(3) processing a tick at `t ≥ R` starts all remaining workers up to exactly `N`
and marks the ramp done; (4) once done, every further tick leaves the state
unchanged (ramp scheduling has stopped). -/
theorem rampup_schedule_correct (numUsers : Nat) (rampDur totalDur : ℚ)
    (hN : 1 ≤ numUsers) (hR : 0 < rampDur) (_hRD : rampDur ≤ totalDur) :
    (∀ ticks : List ℚ, (rampRun numUsers rampDur ticks).workersStarted ≤ numUsers) ∧
    (∀ (t0 t : ℚ) (l : List ℚ),
        (∀ x ∈ l, 0 ≤ x ∧ x < rampDur ∧ x ≤ t) → 0 ≤ t → t < rampDur →
        (rampRun numUsers rampDur (t0 :: l ++ [t])).workersStarted =
          max 1 (Int.toNat ⌊(numUsers : ℚ) * t / rampDur⌋)) ∧
    (∀ (s : RampState) (t : ℚ), s.rampUpStarted = true → s.rampDone = false →
        s.workersStarted ≤ numUsers →
        ¬ t < rampDur →
        (rampTick numUsers rampDur s t).workersStarted = numUsers ∧
        (rampTick numUsers rampDur s t).rampDone = true) ∧
    (∀ (s : RampState) (t : ℚ), s.rampDone = true →
        rampTick numUsers rampDur s t = s) := by
  refine ⟨?_, ?_, ?_, ?_⟩
  · intro ticks
    exact foldl_rampTick_started_le numUsers hN rampDur ticks initRampState
      (Nat.zero_le numUsers)
  · intro t0 t l hl ht htR
    have hfirst : rampTick numUsers rampDur initRampState t0 =
        { workersStarted := 1, rampUpStarted := true, rampDone := false } := rfl
    have h1N : (1 : Nat) ≤ numUsers := hN
    have h1t : (1 : Nat) ≤ rampTarget numUsers t rampDur := rampTarget_one_le _ _ _
    have hmid := foldl_rampTick_inRamp numUsers rampDur hR t l
      { workersStarted := 1, rampUpStarted := true, rampDone := false }
      hl rfl rfl h1N h1t
    obtain ⟨hm1, hm2, hm3, hm4⟩ := hmid
    have hlast : ∀ s2 : RampState, s2.rampUpStarted = true → s2.rampDone = false →
        s2.workersStarted ≤ rampTarget numUsers t rampDur →
        (rampTick numUsers rampDur s2 t).workersStarted =
          max s2.workersStarted (min (rampTarget numUsers t rampDur) numUsers) := by
      intro s2 hs1 hs2 _
      unfold rampTick
      rw [hs2, hs1]
      simp [htR]
    simp only [rampRun, List.foldl_cons, List.foldl_append, List.foldl_nil, hfirst]
    rw [hlast _ hm1 hm2 hm4]
    rw [min_eq_left (rampTarget_le numUsers hN hR htR), max_eq_right hm4]
    rfl
  · intro s t hs1 hs2 hsN ht
    constructor
    · unfold rampTick
      rw [hs2, hs1]
      simp only [Bool.true_eq_false, if_false, if_neg ht]
      exact max_eq_right hsN
    · unfold rampTick
      rw [hs2, hs1]
      simp [ht]
  · intro s t hs
    unfold rampTick
    rw [hs]
    simp

/-- Instance of `rampup_schedule_correct` with `N = 4`, `R = 1`, `D = 2` and ticks
at elapsed seconds `1/10`, `1/5` and `1/2`: after the tick at `t = 1/2` the
started-worker count is the target `max 1 ⌊4·(1/2)/1⌋ = 2`. -/
theorem rampup_schedule_correct_witness :
    (rampRun 4 1 ((1/10 : ℚ) :: [1/5] ++ [1/2])).workersStarted =
      max 1 (Int.toNat ⌊(4 : ℚ) * (1/2) / 1⌋) :=
  (rampup_schedule_correct 4 1 2 (by norm_num) (by norm_num) (by norm_num)).2.1
    (1/10) (1/2) [1/5]
    (by
      intro x hx
      have hx5 : x = (1/5 : ℚ) := by simpa using hx
      rw [hx5]
      norm_num)
    (by norm_num) (by norm_num)

end BifrostBench
